import Mathlib

/-!
Verification of the pyang leafref-path lexer and parser
(src/pyang/leafref_path_lexer.py and src/pyang/leafref_path_parser.py).

The lexer `scan` is embedded directly from the source: an ordered list of
anchored patterns is tried at each position, the first match is committed,
identifiers matching exactly `current` or `deref` are promoted to keyword
tokens, and when no pattern matches a `SyntaxError('syntax error', line,
linepos)` is raised with `line = 1` and `linepos` the 1-based column.

The parser grammar and its semantic actions are embedded from
leafref_path_parser.py.  The LALR engine itself (`from . import yacc`) is not
part of the sources under verification, so the engine behaviour (on-demand
token pulling, one-token lookahead, failure at the first token that cannot be
shifted or reduced) is modelled from the spec; see `parsePathArg` below.
-/

set_option linter.unusedVariables false

/-- Token kinds of the lexer (`patterns` plus the two keyword promotions in
leafref_path_lexer.py).  `LEXERR` is a sentinel used to model the lazily
raised lexer `SyntaxError`: the generator yields tokens until the failing
position, and the error surfaces only when the parser pulls the next token. -/
inductive TokType where
  | WSP
  | LEFT_PARENTHESIS
  | RIGHT_PARENTHESIS
  | LEFT_SQUARE_BRACKET
  | RIGHT_SQUARE_BRACKET
  | DOTS
  | SLASH
  | EQUAL
  | COLON
  | IDENTIFIER
  | CURRENT_KEYWORD
  | DEREF_KEYWORD
  | LEXERR
deriving DecidableEq, Repr

/-- LeafrefPathTok from leafref_path_lexer.py (the `lexer` field is omitted:
it is only a back pointer to the lexer object). -/
structure Tok where
  ttype : TokType
  value : List Char
  lineno : Nat
  lexpos : Nat
deriving DecidableEq, Repr

/-- Character class of `[ \t]` (the WSP pattern), by code point. -/
def isWspChar (c : Char) : Bool :=
  c.toNat == 32 || c.toNat == 9

/-- Character class of `[a-zA-Z_]`, the first character of IDENTIFIER. -/
def isIdentStartChar (c : Char) : Bool :=
  (97 ≤ c.toNat && c.toNat ≤ 122) || (65 ≤ c.toNat && c.toNat ≤ 90) || c.toNat == 95

/-- Character class of `[a-zA-Z0-9_\-.]`, the later characters of IDENTIFIER. -/
def isIdentContChar (c : Char) : Bool :=
  isIdentStartChar c || (48 ≤ c.toNat && c.toNat ≤ 57) || c.toNat == 45 || c.toNat == 46

/-- One step of the scanner: try the ordered pattern list of
leafref_path_lexer.py at the current position and return the token kind, the
matched text and the remaining input.  The pattern order is the source order
(WSP, parentheses, brackets, DOTS, SLASH, EQUAL, COLON, IDENTIFIER); the
regex engine's greedy `+`/`*` is `takeWhile`.  Code points: 32 space, 9 tab,
40 `(`, 41 `)`, 91 `[`, 93 `]`, 46 `.`, 47 `/`, 61 `=`, 58 `:`. -/
def matchPat : List Char → Option (TokType × List Char × List Char)
  | [] => none
  | c :: cs =>
    if c.toNat = 32 ∨ c.toNat = 9 then
      some (.WSP, c :: cs.takeWhile isWspChar, cs.dropWhile isWspChar)
    else if c.toNat = 40 then some (.LEFT_PARENTHESIS, [c], cs)
    else if c.toNat = 41 then some (.RIGHT_PARENTHESIS, [c], cs)
    else if c.toNat = 91 then some (.LEFT_SQUARE_BRACKET, [c], cs)
    else if c.toNat = 93 then some (.RIGHT_SQUARE_BRACKET, [c], cs)
    else if c.toNat = 46 then
      match cs with
      | c2 :: cs2 => if c2.toNat = 46 then some (.DOTS, [c, c2], cs2) else none
      | [] => none
    else if c.toNat = 47 then some (.SLASH, [c], cs)
    else if c.toNat = 61 then some (.EQUAL, [c], cs)
    else if c.toNat = 58 then some (.COLON, [c], cs)
    else if isIdentStartChar c = true then
      some (.IDENTIFIER, c :: cs.takeWhile isIdentContChar, cs.dropWhile isIdentContChar)
    else none

/-- Post-match reclassification of leafref_path_lexer.py:
`functions.get(value, tokname)` promotes an IDENTIFIER whose matched text is
exactly `current` or `deref` to the corresponding keyword kind. -/
def classify (tt : TokType) (v : List Char) : TokType :=
  if tt = .IDENTIFIER then
    if v = "current".data then .CURRENT_KEYWORD
    else if v = "deref".data then .DEREF_KEYWORD
    else .IDENTIFIER
  else tt

/-- The scanner loop of `scan`: tokens produced so far and, if a position with
no matching pattern is reached, the `(line, linepos)` of the raised
`SyntaxError` (line is always 1, `linepos` is the running 1-based column).
`fuel` only bounds the recursion; every step consumes at least one character,
so `fuel = length of the input` always suffices. -/
def scanGo : Nat → List Char → Nat → List Tok × Option (Nat × Nat)
  | _, [], _ => ([], none)
  | 0, _ :: _, p => ([], some (1, p))
  | fuel + 1, c :: cs, p =>
    match matchPat (c :: cs) with
    | none => ([], some (1, p))
    | some (tt, v, r) =>
      let rec_ := scanGo fuel r (p + v.length)
      (⟨classify tt v, v, 1, p⟩ :: rec_.1, rec_.2)

/-- Tokens of a whole input, with a trailing LEXERR sentinel when the scan
fails: the sentinel models the `SyntaxError` the generator raises when the
parser pulls the token at the failing position. -/
def scanToks (cs : List Char) : List Tok :=
  match scanGo cs.length cs 1 with
  | (ts, none) => ts
  | (ts, some (l, c)) => ts ++ [⟨.LEXERR, [], l, c⟩]

/-- Node identifier of the parsed AST: a plain string or a
`(prefix, name)` 2-tuple when a prefix is used (p_node_identifier). -/
inductive NodeId where
  | bare (name : List Char)
  | prefixed (pfx name : List Char)
deriving DecidableEq, Repr

/-- LeafrefPathPredicate from leafref_path_parser.py:
`('predicate', node_id, up, dn)` where `dn` holds the node identifiers of the
rel_path_keyexpr. -/
structure LeafrefPathPredicate where
  literal : List Char
  node_id : NodeId
  up : Nat
  dn : List NodeId
deriving DecidableEq, Repr

/-- Element of a `dn` list: a node identifier or a key predicate, flattened
into one ordered sequence (p_descendant_path, p_absolute_path_segment). -/
inductive Seg where
  | id (n : NodeId)
  | pred (p : LeafrefPathPredicate)
deriving DecidableEq, Repr

/-- LeafrefPathArg from leafref_path_parser.py: `up` is the `../` count or
`-1` for an absolute path, `dn` the segment list, `derefup`/`derefdn` the
contents of a deref invocation (`0`/`None` when no deref is present). -/
structure LeafrefPathArg where
  up : Int
  dn : List Seg
  derefup : Nat
  derefdn : Option (List Seg)
deriving DecidableEq, Repr

/-- Errors of a parse: the lexer `SyntaxError` (line, column), the parser
`SyntaxError` built by `p_error` from the offending token (line, column,
literal text), and `p_error(None)`, "unexpected end of expression". -/
inductive PathErr where
  | lexErr (lineno col : Nat)
  | parseTok (lineno col : Nat) (value : List Char)
  | parseEof
deriving DecidableEq, Repr

/-- Error for a stuck token: a LEXERR sentinel re-raises the lexer error,
any other token is reported by `p_error` with its position and text. -/
def tokErr (t : Tok) : PathErr :=
  if t.ttype = .LEXERR then .lexErr t.lineno t.lexpos
  else .parseTok t.lineno t.lexpos t.value

/-- Identifier: `IDENTIFIER | CURRENT_KEYWORD | DEREF_KEYWORD`
(p_identifier), returning the matched text. -/
def parseIdentifier : List Tok → Except PathErr (List Char × List Tok)
  | [] => .error .parseEof
  | t :: ts =>
    if t.ttype = .IDENTIFIER ∨ t.ttype = .CURRENT_KEYWORD ∨ t.ttype = .DEREF_KEYWORD then
      .ok (t.value, ts)
    else .error (tokErr t)

/-- Node identifier: `prefix COLON identifier | identifier`
(p_node_identifier, with `prefix : identifier` from p_identifier). -/
def parseNodeId (ts : List Tok) : Except PathErr (NodeId × List Tok) :=
  match parseIdentifier ts with
  | .error e => .error e
  | .ok (nm, rest) =>
    match rest with
    | [] => .ok (.bare nm, [])
    | t :: rest2 =>
      if t.ttype = .COLON then
        match parseIdentifier rest2 with
        | .error e => .error e
        | .ok (nm2, rest3) => .ok (.prefixed nm nm2, rest3)
      else .ok (.bare nm, t :: rest2)

/-- Optional whitespace token (the `| WSP ...` alternatives of
p_wsp_slash_wsp and the other literal wrappers). -/
def skipWsp : List Tok → List Tok
  | [] => []
  | t :: ts => if t.ttype = .WSP then ts else t :: ts

/-- Require a token of the given kind. -/
def expectTok (tt : TokType) : List Tok → Except PathErr (Tok × List Tok)
  | [] => .error .parseEof
  | t :: ts => if t.ttype = tt then .ok (t, ts) else .error (tokErr t)

/-- wsp_slash_wsp: `/` with optional whitespace on both sides. -/
def wspSlashWsp (ts : List Tok) : Except PathErr (List Tok) :=
  match expectTok .SLASH (skipWsp ts) with
  | .error e => .error e
  | .ok (_, r) => .ok (skipWsp r)

/-- dots_slash_seq: `(DOTS SLASH)*` counted by an integer accumulator
(p_dots_slash_seq); no whitespace is allowed in this form. -/
def parseDotsSlashSeq : List Tok → Nat → Except PathErr (Nat × List Tok)
  | [], n => .ok (n, [])
  | [t], n => if t.ttype = .DOTS then .error .parseEof else .ok (n, [t])
  | t1 :: t2 :: ts, n =>
    if t1.ttype = .DOTS then
      if t2.ttype = .SLASH then parseDotsSlashSeq ts (n + 1)
      else .error (tokErr t2)
    else .ok (n, t1 :: t2 :: ts)

/-- dots_wsp_slash_wsp_seq: `(DOTS wsp_slash_wsp)*` counted by an integer
accumulator (p_dots_slash_seq, second production group). -/
def parseKeyDots (fuel : Nat) (ts : List Tok) (n : Nat) :
    Except PathErr (Nat × List Tok) :=
  match ts with
  | [] => .ok (n, [])
  | t :: rest =>
    if t.ttype = .DOTS then
      match fuel with
      | 0 => .error .parseEof
      | f + 1 =>
        match wspSlashWsp rest with
        | .error e => .error e
        | .ok rest2 => parseKeyDots f rest2 (n + 1)
    else .ok (n, t :: rest)

/-- Node identifiers of rel_path_keyexpr:
`node_identifier_wsp_slash_wsp_list node_identifier`.  After a node
identifier, a WSP lookahead is committed to `wsp_slash_wsp` (the engine
resolves the shift/reduce conflict with wsp_right_square_bracket by
shifting), so a WSP must be followed by a SLASH here. -/
def parseKeyNodeIds (fuel : Nat) (ts : List Tok) :
    Except PathErr (List NodeId × List Tok) :=
  match parseNodeId ts with
  | .error e => .error e
  | .ok (nid, rest) =>
    match rest with
    | [] => .ok ([nid], [])
    | t :: rest2 =>
      if t.ttype = .SLASH then
        match fuel with
        | 0 => .error .parseEof
        | f + 1 =>
          match parseKeyNodeIds f (skipWsp rest2) with
          | .error e => .error e
          | .ok (ids, r) => .ok (nid :: ids, r)
      else if t.ttype = .WSP then
        match rest2 with
        | [] => .error .parseEof
        | t2 :: rest3 =>
          if t2.ttype = .SLASH then
            match fuel with
            | 0 => .error .parseEof
            | f + 1 =>
              match parseKeyNodeIds f (skipWsp rest3) with
              | .error e => .error e
              | .ok (ids, r) => .ok (nid :: ids, r)
          else .error (tokErr t2)
      else .ok ([nid], t :: rest2)

/-- rel_path_keyexpr: leading `../` count then node identifiers separated by
`/` (p_rel_path_keyexpr). -/
def parseRelPathKeyexpr (fuel : Nat) (ts : List Tok) :
    Except PathErr ((Nat × List NodeId) × List Tok) :=
  match parseKeyDots fuel ts 0 with
  | .error e => .error e
  | .ok (n, r) =>
    match parseKeyNodeIds fuel r with
    | .error e => .error e
    | .ok (ids, r2) => .ok ((n, ids), r2)

/-- current_function_invocation:
`CURRENT_KEYWORD wsp_left_parenthesis_wsp RIGHT_PARENTHESIS`. -/
def parseCurrentInv (ts : List Tok) : Except PathErr (List Tok) :=
  match expectTok .CURRENT_KEYWORD ts with
  | .error e => .error e
  | .ok (_, r) =>
    match expectTok .LEFT_PARENTHESIS (skipWsp r) with
    | .error e => .error e
    | .ok (_, r2) =>
      match expectTok .RIGHT_PARENTHESIS (skipWsp r2) with
      | .error e => .error e
      | .ok (_, r3) => .ok r3

/-- path_key_expr: `current_function_invocation wsp_slash_wsp
rel_path_keyexpr` (p_path_key_expr). -/
def parsePathKeyExpr (fuel : Nat) (ts : List Tok) :
    Except PathErr ((Nat × List NodeId) × List Tok) :=
  match parseCurrentInv ts with
  | .error e => .error e
  | .ok r =>
    match wspSlashWsp r with
    | .error e => .error e
    | .ok r2 => parseRelPathKeyexpr fuel r2

/-- path_predicate: `[` path_equality_expr `]`, building
`LeafrefPathPredicate('predicate', node_id, up, dn)` (p_path_predicate,
p_path_equality_expr). -/
def parsePredicate (fuel : Nat) (ts : List Tok) :
    Except PathErr (LeafrefPathPredicate × List Tok) :=
  match expectTok .LEFT_SQUARE_BRACKET ts with
  | .error e => .error e
  | .ok (_, r) =>
    match parseNodeId (skipWsp r) with
    | .error e => .error e
    | .ok (nid, r2) =>
      match expectTok .EQUAL (skipWsp r2) with
      | .error e => .error e
      | .ok (_, r3) =>
        match parsePathKeyExpr fuel (skipWsp r3) with
        | .error e => .error e
        | .ok ((n, dn), r4) =>
          match expectTok .RIGHT_SQUARE_BRACKET (skipWsp r4) with
          | .error e => .error e
          | .ok (_, r5) => .ok (⟨"predicate".data, nid, n, dn⟩, r5)

/-- path_predicate_list: zero or more predicates, left-accumulated
(p_zero_or_more_lists). -/
def parsePredicateList (fuel : Nat) (ts : List Tok) :
    Except PathErr (List LeafrefPathPredicate × List Tok) :=
  match ts with
  | [] => .ok ([], [])
  | t :: _ =>
    if t.ttype = .LEFT_SQUARE_BRACKET then
      match fuel with
      | 0 => .error .parseEof
      | f + 1 =>
        match parsePredicate (f + 1) ts with
        | .error e => .error e
        | .ok (p, r) =>
          match parsePredicateList f r with
          | .error e => .error e
          | .ok (ps, r2) => .ok (p :: ps, r2)
    else .ok ([], ts)

/-- absolute_path_segment: `SLASH node_identifier path_predicate_list`,
the identifier inserted before its predicates (p_absolute_path_segment). -/
def parseAbsoluteSegment (fuel : Nat) (ts : List Tok) :
    Except PathErr (List Seg × List Tok) :=
  match expectTok .SLASH ts with
  | .error e => .error e
  | .ok (_, r) =>
    match parseNodeId r with
    | .error e => .error e
    | .ok (nid, r2) =>
      match parsePredicateList fuel r2 with
      | .error e => .error e
      | .ok (ps, r3) => .ok (.id nid :: ps.map .pred, r3)

/-- absolute_path_segment_list: further segments while a SLASH follows,
flattened into one sequence (p_zero_or_more_lists extends by lists). -/
def parseAbsoluteRest (fuel : Nat) (ts : List Tok) :
    Except PathErr (List Seg × List Tok) :=
  match ts with
  | [] => .ok ([], [])
  | t :: _ =>
    if t.ttype = .SLASH then
      match fuel with
      | 0 => .error .parseEof
      | f + 1 =>
        match parseAbsoluteSegment (f + 1) ts with
        | .error e => .error e
        | .ok (segs, r) =>
          match parseAbsoluteRest f r with
          | .error e => .error e
          | .ok (more, r2) => .ok (segs ++ more, r2)
    else .ok ([], ts)

/-- absolute_path: one segment then a segment list (p_absolute_path). -/
def parseAbsolutePath (fuel : Nat) (ts : List Tok) :
    Except PathErr (List Seg × List Tok) :=
  match parseAbsoluteSegment fuel ts with
  | .error e => .error e
  | .ok (segs, r) =>
    match parseAbsoluteRest fuel r with
    | .error e => .error e
    | .ok (more, r2) => .ok (segs ++ more, r2)

/-- descendant_path: `node_identifier` alone, or
`node_identifier path_predicate_list absolute_path` (p_descendant_path):
with predicates present an absolute path must follow. -/
def parseDescendantPath (fuel : Nat) (ts : List Tok) :
    Except PathErr (List Seg × List Tok) :=
  match parseNodeId ts with
  | .error e => .error e
  | .ok (nid, r) =>
    match r with
    | [] => .ok ([.id nid], [])
    | t :: _ =>
      if t.ttype = .LEFT_SQUARE_BRACKET then
        match parsePredicateList fuel r with
        | .error e => .error e
        | .ok (ps, r2) =>
          match parseAbsolutePath fuel r2 with
          | .error e => .error e
          | .ok (segs, r3) => .ok (.id nid :: (ps.map .pred ++ segs), r3)
      else if t.ttype = .SLASH then
        match parseAbsolutePath fuel r with
        | .error e => .error e
        | .ok (segs, r2) => .ok (.id nid :: segs, r2)
      else .ok ([.id nid], r)

/-- relative_path: `dots_slash_seq descendant_path` (p_relative_path),
as the pair `(up count, segment list)`. -/
def parseRelativePath (fuel : Nat) (ts : List Tok) :
    Except PathErr ((Nat × List Seg) × List Tok) :=
  match parseDotsSlashSeq ts 0 with
  | .error e => .error e
  | .ok (n, r) =>
    match parseDescendantPath fuel r with
    | .error e => .error e
    | .ok (segs, r2) => .ok ((n, segs), r2)

/-- deref_function_invocation:
`DEREF_KEYWORD wsp_left_parenthesis_wsp relative_path
wsp_right_parenthesis` (p_deref_function_invocation). -/
def parseDerefInvocation (fuel : Nat) (ts : List Tok) :
    Except PathErr ((Nat × List Seg) × List Tok) :=
  match expectTok .DEREF_KEYWORD ts with
  | .error e => .error e
  | .ok (_, r) =>
    match expectTok .LEFT_PARENTHESIS (skipWsp r) with
    | .error e => .error e
    | .ok (_, r2) =>
      match parseRelativePath fuel (skipWsp r2) with
      | .error e => .error e
      | .ok (arg, r3) =>
        match expectTok .RIGHT_PARENTHESIS (skipWsp r3) with
        | .error e => .error e
        | .ok (_, r4) => .ok (arg, r4)

/-- deref_expr: `deref_function_invocation wsp_slash_wsp relative_path`
(p_deref_expr): `up`/`dn` come from the trailing relative path,
`derefup`/`derefdn` from the invocation. -/
def parseDerefExpr (fuel : Nat) (ts : List Tok) :
    Except PathErr (LeafrefPathArg × List Tok) :=
  match parseDerefInvocation fuel ts with
  | .error e => .error e
  | .ok ((dup, ddn), r) =>
    match wspSlashWsp r with
    | .error e => .error e
    | .ok r2 =>
      match parseRelativePath fuel r2 with
      | .error e => .error e
      | .ok ((u, dn), r3) => .ok (⟨(u : Int), dn, dup, some ddn⟩, r3)

/-- path_str: `absolute_path | relative_path` (p_path_str with p_path_arg):
an absolute path gets the sentinel `up = -1`, `derefup`/`derefdn` default to
`0`/`None`. -/
def parsePathStr (fuel : Nat) (ts : List Tok) :
    Except PathErr (LeafrefPathArg × List Tok) :=
  match ts with
  | t :: _ =>
    if t.ttype = .SLASH then
      match parseAbsolutePath fuel ts with
      | .error e => .error e
      | .ok (segs, r) => .ok (⟨-1, segs, 0, none⟩, r)
    else
      match parseRelativePath fuel ts with
      | .error e => .error e
      | .ok ((u, dn), r) => .ok (⟨(u : Int), dn, 0, none⟩, r)
  | [] =>
    match parseRelativePath fuel [] with
    | .error e => .error e
    | .ok ((u, dn), r) => .ok (⟨(u : Int), dn, 0, none⟩, r)

/-- Modelled from the spec: the LALR engine (`pyang/yacc.py`, imported in
leafref_path_parser.py as `from . import yacc`) is not among the sources, so
the dispatch between the two path_arg productions is modelled as the
generated automaton behaves per the spec: a single bottom-up pass with one
token of lookahead.  A leading DEREF_KEYWORD whose next token opens a
`wsp_left_parenthesis_wsp` (LEFT_PARENTHESIS or WSP) is a
deref_function_invocation; otherwise the grammar's identifier fallback makes
the token an ordinary identifier of a path_str. -/
def parsePathArg (fuel : Nat) (ts : List Tok) :
    Except PathErr (LeafrefPathArg × List Tok) :=
  match ts with
  | t1 :: t2 :: _ =>
    if t1.ttype = .DEREF_KEYWORD ∧
        (t2.ttype = .LEFT_PARENTHESIS ∨ t2.ttype = .WSP) then
      parseDerefExpr fuel ts
    else parsePathStr fuel ts
  | _ => parsePathStr fuel ts

/-- Modelled from the spec: parse of a token stream, all-or-nothing.  The
engine (pyang/yacc.py, not among the sources) accepts only when the stream is
exhausted exactly at a reduced path_arg; a leftover token is reported by
`p_error` (a leftover LEXERR sentinel re-raises the lexer error, matching the
on-demand token pulling the spec describes). -/
def parseToks (ts : List Tok) : Except PathErr LeafrefPathArg :=
  match parsePathArg (ts.length + 1) ts with
  | .error e => .error e
  | .ok (a, []) => .ok a
  | .ok (_, t :: _) => .error (tokErr t)

/-- parse of leafref_path_parser.py: scan the source and run the grammar. -/
def parseLeafrefPath (s : String) : Except PathErr LeafrefPathArg :=
  parseToks (scanToks s.data)

deriving instance DecidableEq for Except

/-- Concatenation of the matched texts of a token list: used to state that
tokenization is lossless and contiguous. -/
def tokValues : List Tok → List Char
  | [] => []
  | t :: ts => t.value ++ tokValues ts

/-- Position bookkeeping of `scan`: starting at column `p`, every token
carries line 1, a nonempty matched text, and the column obtained by adding
the lengths of all preceding matched texts. -/
def columnsOk : Nat → List Tok → Bool
  | _, [] => true
  | p, t :: ts =>
    (t.lexpos == p) && (t.lineno == 1) && (!t.value.isEmpty) &&
      columnsOk (p + t.value.length) ts

/-- Valid lexical identifier, per the IDENTIFIER pattern
`[a-zA-Z_][a-zA-Z0-9_\-.]*`. -/
def validIdent : List Char → Bool
  | [] => false
  | c :: cs => isIdentStartChar c && cs.all isIdentContChar

/-- Token produced by the IDENTIFIER pattern (including its keyword
promotion) at column `p`. -/
def identTokAt (n : List Char) (p : Nat) : Tok :=
  ⟨classify .IDENTIFIER n, n, 1, p⟩

/-- Token produced by the SLASH pattern at column `p`. -/
def slashTokAt (p : Nat) : Tok := ⟨.SLASH, ['/'], 1, p⟩

/-- Token produced by the DOTS pattern at column `p`. -/
def dotsTokAt (p : Nat) : Tok := ⟨.DOTS, ['.', '.'], 1, p⟩

/-- Source text of an absolute path built from a list of segment names:
`/n1/n2/.../nk`. -/
def absChars : List (List Char) → List Char
  | [] => []
  | n :: ns => '/' :: (n ++ absChars ns)

/-- Token stream of `absChars`, starting at column `p`. -/
def absToks : List (List Char) → Nat → List Tok
  | [], _ => []
  | n :: ns, p => slashTokAt p :: identTokAt n (p + 1) :: absToks ns (p + 1 + n.length)

/-- Source text of `k` leading `../` fragments. -/
def dotsChars : Nat → List Char
  | 0 => []
  | k + 1 => '.' :: '.' :: '/' :: dotsChars k

/-- Token stream of `dotsChars`, starting at column `p`. -/
def dotsToks : Nat → Nat → List Tok
  | 0, _ => []
  | k + 1, p => dotsTokAt p :: slashTokAt (p + 2) :: dotsToks k (p + 3)

/-- Head of a character list fails the predicate (or the list is empty):
the condition under which a greedy `takeWhile` stops exactly there. -/
def headNot (p : Char → Bool) : List Char → Prop
  | [] => True
  | c :: _ => p c = false

/-- Head token of the list is not of the given kind (or the list is empty). -/
def headTokNot (tt : TokType) : List Tok → Prop
  | [] => True
  | t :: _ => t.ttype ≠ tt

theorem takeWhile_app_of_all {p : Char → Bool} :
    ∀ (l r : List Char), (∀ x ∈ l, p x = true) →
      (l ++ r).takeWhile p = l ++ r.takeWhile p := by
  intro l r h
  induction l with
  | nil => simp
  | cons c cs ih =>
    have hc : p c = true := h c (by simp)
    simp only [List.cons_append, List.takeWhile_cons, hc, if_true]
    rw [ih (fun x hx => h x (by simp [hx]))]

theorem dropWhile_app_of_all {p : Char → Bool} :
    ∀ (l r : List Char), (∀ x ∈ l, p x = true) →
      (l ++ r).dropWhile p = r.dropWhile p := by
  intro l r h
  induction l with
  | nil => simp
  | cons c cs ih =>
    have hc : p c = true := h c (by simp)
    simp only [List.cons_append, List.dropWhile_cons, hc, if_true]
    exact ih (fun x hx => h x (by simp [hx]))

theorem takeWhile_headNot {p : Char → Bool} (r : List Char) (h : headNot p r) :
    r.takeWhile p = [] := by
  cases r with
  | nil => rfl
  | cons c cs => simp only [headNot] at h; simp [List.takeWhile_cons, h]

theorem dropWhile_headNot {p : Char → Bool} (r : List Char) (h : headNot p r) :
    r.dropWhile p = r := by
  cases r with
  | nil => rfl
  | cons c cs => simp only [headNot] at h; simp [List.dropWhile_cons, h]

theorem matchPat_split {cs : List Char} {tt : TokType} {v r : List Char}
    (h : matchPat cs = some (tt, v, r)) : v ++ r = cs ∧ v ≠ [] := by
  cases cs with
  | nil => simp [matchPat] at h
  | cons c cs' =>
    simp only [matchPat] at h
    repeat' split at h
    all_goals first
      | exact Option.noConfusion h
      | (simp only [Option.some.injEq, Prod.mk.injEq] at h
         obtain ⟨rfl, rfl, rfl⟩ := h
         exact ⟨by simp [List.takeWhile_append_dropWhile], by simp⟩)

theorem matchPat_slash (rest : List Char) :
    matchPat ('/' :: rest) = some (.SLASH, ['/'], rest) := rfl

theorem matchPat_dots (rest : List Char) :
    matchPat ('.' :: '.' :: rest) = some (.DOTS, ['.', '.'], rest) := rfl

theorem identStart_ranges {c : Char} (h : isIdentStartChar c = true) :
    (97 ≤ c.toNat ∧ c.toNat ≤ 122) ∨ (65 ≤ c.toNat ∧ c.toNat ≤ 90) ∨ c.toNat = 95 := by
  simp only [isIdentStartChar, Bool.or_eq_true, Bool.and_eq_true, decide_eq_true_eq,
    beq_iff_eq] at h
  tauto

theorem matchPat_ident {c : Char} {cs rest : List Char}
    (h1 : isIdentStartChar c = true) (h2 : ∀ x ∈ cs, isIdentContChar x = true)
    (h3 : headNot isIdentContChar rest) :
    matchPat (c :: (cs ++ rest)) = some (.IDENTIFIER, c :: cs, rest) := by
  have hr := identStart_ranges h1
  have hw : ¬(c.toNat = 32 ∨ c.toNat = 9) := by omega
  have h40 : ¬c.toNat = 40 := by omega
  have h41 : ¬c.toNat = 41 := by omega
  have h91 : ¬c.toNat = 91 := by omega
  have h93 : ¬c.toNat = 93 := by omega
  have h46 : ¬c.toNat = 46 := by omega
  have h47 : ¬c.toNat = 47 := by omega
  have h61 : ¬c.toNat = 61 := by omega
  have h58 : ¬c.toNat = 58 := by omega
  simp only [matchPat]
  rw [if_neg hw, if_neg h40, if_neg h41, if_neg h91, if_neg h93, if_neg h46,
    if_neg h47, if_neg h61, if_neg h58, if_pos h1]
  rw [takeWhile_app_of_all cs rest h2, dropWhile_app_of_all cs rest h2,
    takeWhile_headNot rest h3, dropWhile_headNot rest h3]
  simp

theorem scanGo_step (fuel : Nat) (c : Char) (cs : List Char) (p : Nat) :
    scanGo (fuel + 1) (c :: cs) p =
      match matchPat (c :: cs) with
      | none => ([], some (1, p))
      | some (tt, v, r) =>
        ((⟨classify tt v, v, 1, p⟩ : Tok) :: (scanGo fuel r (p + v.length)).1,
          (scanGo fuel r (p + v.length)).2) := rfl

theorem scanGo_step' {c : Char} {cs : List Char} {tt : TokType} {v r : List Char}
    (fuel p : Nat) (hm : matchPat (c :: cs) = some (tt, v, r)) :
    scanGo (fuel + 1) (c :: cs) p =
      ((⟨classify tt v, v, 1, p⟩ : Tok) :: (scanGo fuel r (p + v.length)).1,
        (scanGo fuel r (p + v.length)).2) := by
  rw [scanGo_step, hm]

theorem scanGo_nil (fuel p : Nat) : scanGo fuel [] p = ([], none) := by
  cases fuel <;> rfl

theorem scanGo_ok_spec : ∀ (fuel : Nat) (cs : List Char) (p : Nat) (ts : List Tok),
    cs.length ≤ fuel → scanGo fuel cs p = (ts, none) →
    tokValues ts = cs ∧ columnsOk p ts = true := by
  intro fuel
  induction fuel with
  | zero =>
    intro cs p ts hlen h
    have : cs = [] := List.length_eq_zero.mp (Nat.le_zero.mp hlen)
    subst this
    rw [scanGo_nil] at h
    obtain ⟨rfl, -⟩ : ts = [] ∧ True := by
      simp only [Prod.mk.injEq] at h; exact ⟨h.1.symm, trivial⟩
    exact ⟨rfl, rfl⟩
  | succ f ih =>
    intro cs p ts hlen h
    cases cs with
    | nil =>
      rw [scanGo_nil] at h
      obtain ⟨rfl, -⟩ : ts = [] ∧ True := by
        simp only [Prod.mk.injEq] at h; exact ⟨h.1.symm, trivial⟩
      exact ⟨rfl, rfl⟩
    | cons c cs' =>
      rw [scanGo_step] at h
      cases hm : matchPat (c :: cs') with
      | none => rw [hm] at h; simp at h
      | some res =>
        obtain ⟨tt, v, r⟩ := res
        rw [hm] at h
        simp only [Prod.mk.injEq] at h
        rcases hgo : scanGo f r (p + v.length) with ⟨ts', e'⟩
        rw [hgo] at h
        simp only at h
        obtain ⟨hts, he⟩ := h
        subst hts
        subst he
        obtain ⟨hsplit, hne⟩ := matchPat_split hm
        have hrlen : r.length ≤ f := by
          have hlen2 : v.length + r.length = cs'.length + 1 := by
            have := congrArg List.length hsplit
            simpa using this
          have hv : 1 ≤ v.length := by
            cases v with
            | nil => exact absurd rfl hne
            | cons a b => simp
          simp only [List.length_cons] at hlen
          omega
        obtain ⟨ihv, ihc⟩ := ih r (p + v.length) ts' hrlen hgo
        constructor
        · show v ++ tokValues ts' = c :: cs'
          rw [ihv, hsplit]
        · simp [columnsOk, ihc, List.isEmpty_iff, hne]

theorem scanGo_error_spec : ∀ (fuel : Nat) (cs : List Char) (p : Nat) (ts : List Tok)
    (l c : Nat), cs.length ≤ fuel → scanGo fuel cs p = (ts, some (l, c)) →
    l = 1 ∧ c = p + (tokValues ts).length ∧
    ∃ r, cs = tokValues ts ++ r ∧ r ≠ [] ∧ matchPat r = none := by
  intro fuel
  induction fuel with
  | zero =>
    intro cs p ts l c hlen h
    have : cs = [] := List.length_eq_zero.mp (Nat.le_zero.mp hlen)
    subst this
    rw [scanGo_nil] at h
    simp at h
  | succ f ih =>
    intro cs p ts l c hlen h
    cases cs with
    | nil => rw [scanGo_nil] at h; simp at h
    | cons ch cs' =>
      rw [scanGo_step] at h
      cases hm : matchPat (ch :: cs') with
      | none =>
        rw [hm] at h
        simp only [Prod.mk.injEq] at h
        obtain ⟨hts, he⟩ := h
        obtain ⟨rfl, rfl⟩ : l = 1 ∧ c = p := by
          simp only [Option.some.injEq, Prod.mk.injEq] at he
          exact ⟨he.1.symm, he.2.symm⟩
        subst hts
        exact ⟨rfl, by simp [tokValues], ch :: cs', by simp [tokValues], by simp, hm⟩
      | some res =>
        obtain ⟨tt, v, r⟩ := res
        rw [hm] at h
        simp only [Prod.mk.injEq] at h
        rcases hgo : scanGo f r (p + v.length) with ⟨ts', e'⟩
        rw [hgo] at h
        simp only at h
        obtain ⟨hts, he⟩ := h
        subst hts
        subst he
        obtain ⟨hsplit, hne⟩ := matchPat_split hm
        have hrlen : r.length ≤ f := by
          have hlen2 : v.length + r.length = cs'.length + 1 := by
            have := congrArg List.length hsplit
            simpa using this
          have hv : 1 ≤ v.length := by
            cases v with
            | nil => exact absurd rfl hne
            | cons a b => simp
          simp only [List.length_cons] at hlen
          omega
        obtain ⟨hl, hc, r', hsplit', hne', hnp⟩ := ih r (p + v.length) ts' l c hrlen hgo
        refine ⟨hl, ?_, r', ?_, hne', hnp⟩
        · simp only [tokValues, List.length_append]
          omega
        · show ch :: cs' = (v ++ tokValues ts') ++ r'
          rw [List.append_assoc, ← hsplit', hsplit]

theorem validIdent_parts {n : List Char} (h : validIdent n = true) :
    ∃ c cs, n = c :: cs ∧ isIdentStartChar c = true ∧ ∀ x ∈ cs, isIdentContChar x = true := by
  cases n with
  | nil => simp [validIdent] at h
  | cons c cs =>
    simp only [validIdent, Bool.and_eq_true, List.all_eq_true] at h
    exact ⟨c, cs, rfl, h.1, h.2⟩

theorem validIdent_length {n : List Char} (h : validIdent n = true) : 1 ≤ n.length := by
  obtain ⟨c, cs, rfl, -, -⟩ := validIdent_parts h
  simp

theorem scanGo_ident_step (f p : Nat) (n rest : List Char)
    (hv : validIdent n = true) (hr : headNot isIdentContChar rest) :
    scanGo (f + 1) (n ++ rest) p =
      (identTokAt n p :: (scanGo f rest (p + n.length)).1,
        (scanGo f rest (p + n.length)).2) := by
  obtain ⟨c, cs, rfl, h1, h2⟩ := validIdent_parts hv
  rw [List.cons_append, scanGo_step, matchPat_ident h1 h2 hr]
  rfl

theorem headNot_absChars (ns : List (List Char)) :
    headNot isIdentContChar (absChars ns) := by
  cases ns with
  | nil => trivial
  | cons a b => show isIdentContChar '/' = false; decide

theorem absChars_cons (n : List Char) (ns : List (List Char)) :
    absChars (n :: ns) = '/' :: (n ++ absChars ns) := rfl

theorem scanGo_absChars : ∀ (names : List (List Char)) (fuel p : Nat),
    (absChars names).length ≤ fuel → (∀ n ∈ names, validIdent n = true) →
    scanGo fuel (absChars names) p = (absToks names p, none) := by
  intro names
  induction names with
  | nil => intro fuel p hlen hv; simp [absChars, absToks, scanGo_nil]
  | cons n ns ih =>
    intro fuel p hlen hv
    have hvn : validIdent n = true := hv n (by simp)
    have hnlen := validIdent_length hvn
    rw [absChars_cons] at hlen ⊢
    simp only [List.length_cons, List.length_append] at hlen
    cases fuel with
    | zero => omega
    | succ f =>
      rw [scanGo_step, matchPat_slash]
      cases f with
      | zero => omega
      | succ f1 =>
        simp only [List.length_singleton]
        rw [scanGo_ident_step f1 (p + 1) n (absChars ns) hvn (headNot_absChars ns)]
        rw [ih f1 (p + 1 + n.length) (by omega) (fun m hm => hv m (by simp [hm]))]
        simp [absToks, slashTokAt, classify]

theorem dotsChars_length (k : Nat) : (dotsChars k).length = 3 * k := by
  induction k with
  | zero => rfl
  | succ m ih => simp [dotsChars, ih]; omega

theorem scanGo_dotsChars : ∀ (k fuel p : Nat) (n : List Char), validIdent n = true →
    (dotsChars k ++ n).length ≤ fuel →
    scanGo fuel (dotsChars k ++ n) p =
      (dotsToks k p ++ [identTokAt n (p + 3 * k)], none) := by
  intro k
  induction k with
  | zero =>
    intro fuel p n hv hlen
    simp only [dotsChars, List.nil_append] at hlen ⊢
    have hnlen := validIdent_length hv
    cases fuel with
    | zero => omega
    | succ f =>
      have : scanGo (f + 1) (n ++ []) p =
          (identTokAt n p :: (scanGo f [] (p + n.length)).1,
            (scanGo f [] (p + n.length)).2) :=
        scanGo_ident_step f p n [] hv trivial
      rw [List.append_nil] at this
      rw [this, scanGo_nil]
      simp [dotsToks]
  | succ k ih =>
    intro fuel p n hv hlen
    have hnlen := validIdent_length hv
    have hdlen := dotsChars_length k
    show scanGo fuel ('.' :: '.' :: '/' :: (dotsChars k ++ n)) p = _
    simp only [List.length_append, List.length_cons, dotsChars_length] at hlen
    cases fuel with
    | zero => omega
    | succ f =>
      rw [scanGo_step' f p (matchPat_dots _)]
      cases f with
      | zero => omega
      | succ f1 =>
        rw [scanGo_step' f1 _ (matchPat_slash _)]
        cases f1 with
        | zero => omega
        | succ f2 =>
          simp only [List.length_cons, List.length_nil, List.length_singleton]
          rw [ih (f2 + 1) (p + 2 + 1) n hv (by simp [dotsChars_length]; omega)]
          have e : p + 2 + 1 + 3 * k = p + 3 * (k + 1) := by ring
          rw [e]
          simp [dotsToks, dotsTokAt, slashTokAt, classify]

/-! ### Parser lemmas on token streams -/

theorem classify_ident_mem (v : List Char) :
    classify .IDENTIFIER v = .IDENTIFIER ∨ classify .IDENTIFIER v = .CURRENT_KEYWORD ∨
      classify .IDENTIFIER v = .DEREF_KEYWORD := by
  unfold classify; split_ifs <;> simp

theorem classify_ident_ne_slash (v : List Char) : classify .IDENTIFIER v ≠ .SLASH := by
  unfold classify; split_ifs <;> simp

theorem classify_ident_ne_dots (v : List Char) : classify .IDENTIFIER v ≠ .DOTS := by
  unfold classify; split_ifs <;> simp

theorem parseIdentifier_identTok (n : List Char) (p : Nat) (ts : List Tok) :
    parseIdentifier (identTokAt n p :: ts) = .ok (n, ts) := by
  simp only [parseIdentifier, identTokAt]
  rw [if_pos (classify_ident_mem n)]

theorem slashTokAt_ttype (p : Nat) : (slashTokAt p).ttype = TokType.SLASH := rfl

theorem identTokAt_ttype (n : List Char) (p : Nat) :
    (identTokAt n p).ttype = classify .IDENTIFIER n := rfl

theorem dotsTokAt_ttype (p : Nat) : (dotsTokAt p).ttype = TokType.DOTS := rfl

theorem headTokNot_absToks (ns : List (List Char)) (q : Nat) (tt : TokType)
    (h : tt ≠ .SLASH) : headTokNot tt (absToks ns q) := by
  cases ns with
  | nil => trivial
  | cons a b =>
    show TokType.SLASH ≠ tt
    exact fun hc => h hc.symm

theorem parseNodeId_identTok (n : List Char) (p : Nat) (rest : List Tok)
    (h : headTokNot .COLON rest) :
    parseNodeId (identTokAt n p :: rest) = .ok (.bare n, rest) := by
  cases rest with
  | nil => simp [parseNodeId, parseIdentifier_identTok]
  | cons t ts =>
    simp only [headTokNot] at h
    simp [parseNodeId, parseIdentifier_identTok, h]

theorem parsePredicateList_not (fuel : Nat) (ts : List Tok)
    (h : headTokNot .LEFT_SQUARE_BRACKET ts) :
    parsePredicateList fuel ts = .ok ([], ts) := by
  cases ts with
  | nil => rw [parsePredicateList.eq_def]
  | cons t ts' =>
    simp only [headTokNot] at h
    rw [parsePredicateList.eq_def]
    simp [h]

theorem parseAbsSegment_toks (fuel : Nat) (n : List Char) (p q : Nat)
    (ns : List (List Char)) :
    parseAbsoluteSegment fuel (slashTokAt p :: identTokAt n (p + 1) :: absToks ns q) =
      .ok ([Seg.id (.bare n)], absToks ns q) := by
  have h1 : expectTok .SLASH (slashTokAt p :: identTokAt n (p + 1) :: absToks ns q) =
      .ok (slashTokAt p, identTokAt n (p + 1) :: absToks ns q) := by
    simp [expectTok, slashTokAt]
  simp only [parseAbsoluteSegment, h1,
    parseNodeId_identTok n (p + 1) (absToks ns q)
      (headTokNot_absToks ns q .COLON (by simp)),
    parsePredicateList_not fuel (absToks ns q)
      (headTokNot_absToks ns q .LEFT_SQUARE_BRACKET (by simp))]
  simp

theorem parseAbsoluteRest_toks : ∀ (ns : List (List Char)) (fuel p : Nat),
    ns.length < fuel →
    parseAbsoluteRest fuel (absToks ns p) =
      .ok (ns.map (fun n => Seg.id (.bare n)), []) := by
  intro ns
  induction ns with
  | nil => intro fuel p h; simp [absToks, parseAbsoluteRest]
  | cons n ns ih =>
    intro fuel p h
    cases fuel with
    | zero => omega
    | succ f =>
      show parseAbsoluteRest (f + 1)
        (slashTokAt p :: identTokAt n (p + 1) :: absToks ns (p + 1 + n.length)) = _
      rw [parseAbsoluteRest.eq_def]
      simp [slashTokAt_ttype,
        parseAbsSegment_toks (f + 1) n p (p + 1 + n.length) ns,
        ih f (p + 1 + n.length) (by simpa using h)]

theorem parseAbsolutePath_toks (n : List Char) (ns : List (List Char)) (fuel p : Nat)
    (h : ns.length < fuel) :
    parseAbsolutePath fuel (absToks (n :: ns) p) =
      .ok (Seg.id (.bare n) :: ns.map (fun m => Seg.id (.bare m)), []) := by
  show parseAbsolutePath fuel
    (slashTokAt p :: identTokAt n (p + 1) :: absToks ns (p + 1 + n.length)) = _
  simp only [parseAbsolutePath,
    parseAbsSegment_toks fuel n p (p + 1 + n.length) ns,
    parseAbsoluteRest_toks ns fuel (p + 1 + n.length) h]
  simp

theorem absToks_length : ∀ (ns : List (List Char)) (p : Nat),
    (absToks ns p).length = 2 * ns.length := by
  intro ns
  induction ns with
  | nil => intro p; rfl
  | cons n ns ih => intro p; simp [absToks, ih]; omega

theorem parseDotsSlashSeq_dotsToks : ∀ (k p n0 : Nat) (t : Tok), t.ttype ≠ .DOTS →
    parseDotsSlashSeq (dotsToks k p ++ [t]) n0 = .ok (n0 + k, [t]) := by
  intro k
  induction k with
  | zero =>
    intro p n0 t h
    simp [dotsToks, parseDotsSlashSeq, h]
  | succ k ih =>
    intro p n0 t h
    show parseDotsSlashSeq
      (dotsTokAt p :: slashTokAt (p + 2) :: (dotsToks k (p + 3) ++ [t])) n0 = _
    cases hd : dotsToks k (p + 3) ++ [t] with
    | nil => exact absurd hd (by simp)
    | cons t1 ts1 =>
      rw [parseDotsSlashSeq.eq_def]
      simp only [dotsTokAt_ttype, slashTokAt_ttype, hd]
      rw [if_pos trivial, if_pos trivial, ← hd, ih (p + 3) (n0 + 1) t h]
      have e : n0 + 1 + k = n0 + (k + 1) := by omega
      rw [e]

theorem parseDescendant_single (fuel : Nat) (n : List Char) (p : Nat) :
    parseDescendantPath fuel [identTokAt n p] = .ok ([.id (.bare n)], []) := by
  simp [parseDescendantPath, parseNodeId_identTok n p [] trivial]

theorem parseRelativePath_dots (fuel k p q : Nat) (n : List Char) :
    parseRelativePath fuel (dotsToks k p ++ [identTokAt n q]) =
      .ok ((k, [.id (.bare n)]), []) := by
  have hseq := parseDotsSlashSeq_dotsToks k p 0 (identTokAt n q) (classify_ident_ne_dots n)
  simp [parseRelativePath, hseq, parseDescendant_single]

theorem parsePathStr_dots (fuel k p q : Nat) (n : List Char) :
    parsePathStr fuel (dotsToks k p ++ [identTokAt n q]) =
      .ok (⟨(k : Int), [.id (.bare n)], 0, none⟩, []) := by
  have hrel := parseRelativePath_dots fuel k p q n
  cases k with
  | zero =>
    simp only [dotsToks, List.nil_append] at hrel ⊢
    simp [parsePathStr, identTokAt_ttype, classify_ident_ne_slash n, hrel]
  | succ k' =>
    simp only [dotsToks, List.cons_append] at hrel ⊢
    simp [parsePathStr, dotsTokAt_ttype, hrel]

theorem parsePathArg_dots (fuel k p q : Nat) (n : List Char) :
    parsePathArg fuel (dotsToks k p ++ [identTokAt n q]) =
      .ok (⟨(k : Int), [.id (.bare n)], 0, none⟩, []) := by
  have hstr := parsePathStr_dots fuel k p q n
  cases k with
  | zero =>
    simp only [dotsToks, List.nil_append] at hstr ⊢
    simp [parsePathArg, hstr]
  | succ k' =>
    simp only [dotsToks, List.cons_append] at hstr ⊢
    simp [parsePathArg, dotsTokAt_ttype, hstr]

/-- Claim C2: every relative path with exactly `n` leading `../` parses with
`up == n`, for any count including zero; the `../` fragments are only ever
counted by the integer accumulator, never stored. -/
theorem relative_path_counts_leading_dotdots (k : Nat) (n : List Char)
    (h : validIdent n = true) :
    parseLeafrefPath ⟨dotsChars k ++ n⟩ =
      .ok ⟨(k : Int), [Seg.id (NodeId.bare n)], 0, none⟩ := by
  show parseToks (scanToks (dotsChars k ++ n)) = _
  unfold scanToks
  rw [scanGo_dotsChars k (dotsChars k ++ n).length 1 n h le_rfl]
  show parseToks (dotsToks k 1 ++ [identTokAt n (1 + 3 * k)]) = _
  unfold parseToks
  rw [parsePathArg_dots]

/-- Claim C1: every absolute path `/n1/.../nk` over plain identifiers parses
with `up == -1`, `dn` the ordered list of node identifiers, `derefup == 0`
and `derefdn` empty. -/
theorem absolute_path_parses_to_bare_segments (names : List (List Char))
    (h1 : names ≠ []) (h2 : ∀ n ∈ names, validIdent n = true) :
    parseLeafrefPath ⟨absChars names⟩ =
      .ok ⟨-1, names.map (fun n => Seg.id (NodeId.bare n)), 0, none⟩ := by
  obtain ⟨n, ns, rfl⟩ : ∃ n ns, names = n :: ns := by
    cases names with
    | nil => exact absurd rfl h1
    | cons a b => exact ⟨a, b, rfl⟩
  show parseToks (scanToks (absChars (n :: ns))) = _
  unfold scanToks
  rw [scanGo_absChars (n :: ns) (absChars (n :: ns)).length 1 le_rfl h2]
  show parseToks (absToks (n :: ns) 1) = _
  unfold parseToks
  have hfuel : ns.length < (absToks (n :: ns) 1).length + 1 := by
    rw [absToks_length]; simp; omega
  have habs : parseAbsolutePath ((absToks (n :: ns) 1).length + 1)
      (slashTokAt 1 :: identTokAt n (1 + 1) :: absToks ns (1 + 1 + n.length)) =
      .ok (Seg.id (.bare n) :: ns.map (fun m => Seg.id (.bare m)), []) :=
    parseAbsolutePath_toks n ns ((absToks (n :: ns) 1).length + 1) 1 hfuel
  have harg : parsePathArg ((absToks (n :: ns) 1).length + 1) (absToks (n :: ns) 1) =
      .ok (⟨-1, Seg.id (.bare n) :: ns.map (fun m => Seg.id (.bare m)), 0, none⟩, []) := by
    show parsePathArg _
      (slashTokAt 1 :: identTokAt n (1 + 1) :: absToks ns (1 + 1 + n.length)) = _
    simp [parsePathArg, slashTokAt_ttype, parsePathStr, habs]
  rw [harg]
  rfl

/-! ### Structural lemmas about deref placement -/

theorem parsePathStr_derefdn_none {fuel : Nat} {ts : List Tok}
    {a : LeafrefPathArg} {r : List Tok}
    (h : parsePathStr fuel ts = .ok (a, r)) : a.derefdn = none := by
  unfold parsePathStr at h
  repeat' split at h
  all_goals first
    | exact Except.noConfusion h
    | (simp only [Except.ok.injEq, Prod.mk.injEq] at h
       obtain ⟨hh, -⟩ := h
       rw [← hh])

theorem parseDerefExpr_shape {fuel : Nat} {ts : List Tok}
    {a : LeafrefPathArg} {r : List Tok}
    (h : parseDerefExpr fuel ts = .ok (a, r)) :
    0 ≤ a.up ∧ a.derefdn ≠ none := by
  unfold parseDerefExpr at h
  repeat' split at h
  all_goals first
    | exact Except.noConfusion h
    | (simp only [Except.ok.injEq, Prod.mk.injEq] at h
       obtain ⟨hh, -⟩ := h
       rw [← hh]
       rename_i u dn r3
       exact ⟨Int.natCast_nonneg _, by simp⟩)

theorem parsePathArg_deref_shape {fuel : Nat} {ts : List Tok}
    {a : LeafrefPathArg} {r : List Tok}
    (h : parsePathArg fuel ts = .ok (a, r)) (hd : a.derefdn ≠ none) : 0 ≤ a.up := by
  unfold parsePathArg at h
  repeat' split at h
  all_goals first
    | exact (parseDerefExpr_shape h).1
    | exact absurd (parsePathStr_derefdn_none h) hd

/-! ### Claim theorems -/

/-- Claim C3: `"deref(../if:ref)/if:name"` parses with `up == 0`,
`dn == [(if, name)]` from the trailing relative path, `derefup == 1` and
`derefdn == [(if, ref)]` from the relative path inside the deref
parentheses. -/
theorem deref_composition_example :
    parseLeafrefPath "deref(../if:ref)/if:name" =
      .ok ⟨0, [Seg.id (NodeId.prefixed "if".data "name".data)], 1,
        some [Seg.id (NodeId.prefixed "if".data "ref".data)]⟩ := by decide

/-- Claim C4: `"/a[b=current()/../c]"` parses into one absolute segment
sequence `[a, Predicate]`, whose predicate has `literal == 'predicate'`,
`node_id == b`, `up == 1` and `dn == [c]`; the predicate is flattened into
the same ordered sequence right after the identifier it constrains. -/
theorem predicate_flattening_example :
    parseLeafrefPath "/a[b=current()/../c]" =
      .ok ⟨-1, [Seg.id (NodeId.bare "a".data),
        Seg.pred ⟨"predicate".data, NodeId.bare "b".data, 1, [NodeId.bare "c".data]⟩],
        0, none⟩ := by decide

/-- Claim C5, counterexample: `".. / a / b"` does not parse at all (the
grammar's dots_slash_seq admits no whitespace), so it cannot parse to the
same AST as `"../a/b"`. -/
theorem whitespace_around_slash_counterexample :
    parseLeafrefPath ".. / a / b" = .error (.parseTok 1 3 [' '])
    ∧ parseLeafrefPath ".. / a / b" ≠ parseLeafrefPath "../a/b" := by decide

/-- Claim C5, amended: whitespace around `/` is accepted exactly at the
wsp_slash_wsp points (after a deref invocation and inside its parentheses),
where it never changes the AST; in the plain dots_slash_seq and
absolute-path positions whitespace is rejected, so `".. / a / b"` and
`".. /a/ b"` raise a ParseError at column 3 while `"../a/b"` parses. -/
theorem whitespace_at_sep_points_only :
    parseLeafrefPath "../a/b" =
      .ok ⟨1, [Seg.id (NodeId.bare "a".data), Seg.id (NodeId.bare "b".data)], 0, none⟩
    ∧ parseLeafrefPath ".. / a / b" = .error (.parseTok 1 3 [' '])
    ∧ parseLeafrefPath ".. /a/ b" = .error (.parseTok 1 3 [' '])
    ∧ parseLeafrefPath "deref(../a) / b" = parseLeafrefPath "deref(../a)/b"
    ∧ parseLeafrefPath "deref( ../a )/b" = parseLeafrefPath "deref(../a)/b" := by decide

/-- Claim C6: `current` and `deref` are ordinary identifiers when no
function-call form is present (`"current/deref"` parses to the two bare
identifiers), and the lexer's keyword promotion applies exactly to the
literal texts `current` and `deref`, never to a longer identifier that
merely starts with them. -/
theorem reserved_words_as_identifiers :
    parseLeafrefPath "current/deref" =
      .ok ⟨0, [Seg.id (NodeId.bare "current".data), Seg.id (NodeId.bare "deref".data)],
        0, none⟩
    ∧ (∀ v : List Char, classify .IDENTIFIER v = .CURRENT_KEYWORD ↔ v = "current".data)
    ∧ (∀ v : List Char, classify .IDENTIFIER v = .DEREF_KEYWORD ↔ v = "deref".data) := by
  refine ⟨by decide, fun v => ?_, fun v => ?_⟩ <;>
    (unfold classify; split_ifs <;> simp_all)

/-- Claim C7: a deref invocation is accepted only as the outermost form
prefixing a relative path: any successful parse that recorded a deref
(`derefdn` present) has a relative outer path (`up ≥ 0`, never the absolute
sentinel `-1`); a deref inside a predicate's key expression and a deref
inside an absolute path both raise errors. -/
theorem deref_top_level_only :
    (∀ (s : String) (r : LeafrefPathArg),
        parseLeafrefPath s = .ok r → r.derefdn ≠ none → 0 ≤ r.up)
    ∧ parseLeafrefPath "a[b=deref(../c)/d]" = .error (.parseTok 1 5 "deref".data)
    ∧ parseLeafrefPath "/a/deref(../b)" = .error (.parseTok 1 9 ['(']) := by
  refine ⟨?_, by decide, by decide⟩
  intro s r h hd
  unfold parseLeafrefPath parseToks at h
  split at h
  all_goals first
    | exact Except.noConfusion h
    | (rename_i a heq
       obtain rfl : a = r := by injection h
       exact parsePathArg_deref_shape heq hd)

/-- Claim C8: parsing is all-or-nothing with structured errors: a stuck
token is reported with its line, column and literal text (`"deref()"` fails
at the `)` in column 7, `"a="` at the `=` in column 2), and exhaustion of
the stream before a complete path_arg reports unexpected end of expression
(`"../"`). -/
theorem parse_error_reporting :
    parseLeafrefPath "deref()" = .error (.parseTok 1 7 [')'])
    ∧ parseLeafrefPath "a=" = .error (.parseTok 1 2 ['='])
    ∧ parseLeafrefPath "../" = .error .parseEof := by decide

/-- Claim C9, counterexample: `"a ! b"` does not produce a lexer error at
column 3; the parse fails first, at the whitespace token in column 2,
because tokens are pulled on demand and the parser gets stuck before the
lexer ever reaches `!`. -/
theorem lex_error_column_counterexample :
    parseLeafrefPath "a ! b" = .error (.parseTok 1 2 [' '])
    ∧ (PathErr.parseTok 1 2 [' '] : PathErr) ≠ .lexErr 1 3 := by decide

/-- Claim C9, amended: when the scan reaches a position where no pattern
matches, the error carries line 1 and the 1-based column of that position
(one past the characters already tokenized); `"//a"` raises a ParseError at
column 2, `"a ! b"` raises a ParseError at column 2 (the parse gets stuck
on the whitespace before the lexer reaches `!`), and `"../!"` raises the
lexer error at column 4. -/
theorem lexer_error_line_and_column :
    (∀ (cs : List Char) (ts : List Tok) (l c : Nat),
        scanGo cs.length cs 1 = (ts, some (l, c)) →
        l = 1 ∧ c = 1 + (tokValues ts).length ∧
        ∃ r, cs = tokValues ts ++ r ∧ r ≠ [] ∧ matchPat r = none)
    ∧ parseLeafrefPath "//a" = .error (.parseTok 1 2 ['/'])
    ∧ parseLeafrefPath "a ! b" = .error (.parseTok 1 2 [' '])
    ∧ parseLeafrefPath "../!" = .error (.lexErr 1 4) := by
  refine ⟨?_, by decide, by decide, by decide⟩
  intro cs ts l c h
  exact scanGo_error_spec cs.length cs 1 ts l c le_rfl h

/-- Claim C10: tokenization is lossless and contiguous: when the scan
succeeds, concatenating the token texts in order reproduces the input
exactly, every token is nonempty, and each token's column is 1 plus the
total length of all preceding tokens. -/
theorem tokenization_lossless (cs : List Char) (ts : List Tok)
    (h : scanGo cs.length cs 1 = (ts, none)) :
    scanToks cs = ts ∧ tokValues ts = cs ∧ columnsOk 1 ts = true := by
  have hs := scanGo_ok_spec cs.length cs 1 ts le_rfl h
  refine ⟨?_, hs.1, hs.2⟩
  unfold scanToks
  rw [h]

/-- Witness for claim C1 at the concrete path `"/a/b/c"`. -/
theorem absolute_path_parses_witness :
    parseLeafrefPath "/a/b/c" =
      .ok ⟨-1, [Seg.id (NodeId.bare "a".data), Seg.id (NodeId.bare "b".data),
        Seg.id (NodeId.bare "c".data)], 0, none⟩ := by
  have h := absolute_path_parses_to_bare_segments ["a".data, "b".data, "c".data]
    (by decide) (by decide)
  have e : ("/a/b/c" : String) = ⟨absChars ["a".data, "b".data, "c".data]⟩ := by decide
  rw [e]
  exact h

/-- Witness for claim C2 at the concrete path `"../../node"`. -/
theorem relative_path_counts_witness :
    parseLeafrefPath "../../node" =
      .ok ⟨2, [Seg.id (NodeId.bare "node".data)], 0, none⟩ := by
  have h := relative_path_counts_leading_dotdots 2 "node".data (by decide)
  have e : ("../../node" : String) = ⟨dotsChars 2 ++ "node".data⟩ := by decide
  rw [e]
  exact h

/-- Witness for claim C7 at the concrete path `"deref(../a)/b"`. -/
theorem deref_top_level_only_witness :
    parseLeafrefPath "deref(../a)/b" =
      .ok ⟨0, [Seg.id (NodeId.bare "b".data)], 1, some [Seg.id (NodeId.bare "a".data)]⟩
    ∧ (0 : Int) ≤
        (⟨0, [Seg.id (NodeId.bare "b".data)], 1,
          some [Seg.id (NodeId.bare "a".data)]⟩ : LeafrefPathArg).up := by
  refine ⟨by decide, ?_⟩
  exact deref_top_level_only.1 "deref(../a)/b"
    ⟨0, [Seg.id (NodeId.bare "b".data)], 1, some [Seg.id (NodeId.bare "a".data)]⟩
    (by decide) (by simp)

/-- Witness for the amended claim C9 at the concrete input `"a ! b"`. -/
theorem lexer_error_line_and_column_witness :
    scanGo ("a ! b".data).length "a ! b".data 1 =
      ([⟨.IDENTIFIER, ['a'], 1, 1⟩, ⟨.WSP, [' '], 1, 2⟩], some (1, 3))
    ∧ (1 = 1 ∧ 3 = 1 +
        (tokValues [⟨.IDENTIFIER, ['a'], 1, 1⟩, ⟨.WSP, [' '], 1, 2⟩]).length
      ∧ ∃ r, "a ! b".data =
          tokValues [⟨.IDENTIFIER, ['a'], 1, 1⟩, ⟨.WSP, [' '], 1, 2⟩] ++ r
          ∧ r ≠ [] ∧ matchPat r = none) := by
  refine ⟨by decide, ?_⟩
  exact lexer_error_line_and_column.1 "a ! b".data
    [⟨.IDENTIFIER, ['a'], 1, 1⟩, ⟨.WSP, [' '], 1, 2⟩] 1 3 (by decide)

/-- Witness for claim C10 at the concrete input `"a/b"`. -/
theorem tokenization_lossless_witness :
    scanToks "a/b".data =
      [⟨.IDENTIFIER, ['a'], 1, 1⟩, ⟨.SLASH, ['/'], 1, 2⟩, ⟨.IDENTIFIER, ['b'], 1, 3⟩]
    ∧ tokValues [⟨.IDENTIFIER, ['a'], 1, 1⟩, ⟨.SLASH, ['/'], 1, 2⟩,
        ⟨.IDENTIFIER, ['b'], 1, 3⟩] = "a/b".data
    ∧ columnsOk 1 [⟨.IDENTIFIER, ['a'], 1, 1⟩, ⟨.SLASH, ['/'], 1, 2⟩,
        ⟨.IDENTIFIER, ['b'], 1, 3⟩] = true := by
  exact tokenization_lossless "a/b".data
    [⟨.IDENTIFIER, ['a'], 1, 1⟩, ⟨.SLASH, ['/'], 1, 2⟩, ⟨.IDENTIFIER, ['b'], 1, 3⟩]
    (by decide)
